import Mathlib

/-!
Verification of the tile-addressing-and-caching subsystem of the
gee-integrator-api repository.

The geohash codec is embedded from `src/app/tile.py` (`_base32`,
`_encode_i2c`, `_decode_c2i`, `_int_to_float_hex`, `to_bbox`,
`tile2goehashBBOX`).  Python floats are embedded as exact rationals `ℚ`
(all the arithmetic performed by these functions is dyadic, hence exact),
and the transcendental tile-corner latitude (`math.atan`, `math.sinh`) as
real numbers `ℝ`.  The tile resolver is embedded from
`src/app/api/buildings.py` with the outcomes of its external effects
(Valkey cache store, Earth Engine upstream, HTTP tile download) supplied
as explicit data, and the trace of performed operations recorded.
-/

namespace GeeSpec

/-- The geohash alphabet `_base32` of `src/app/tile.py`. -/
def base32 : List Char :=
  ['0', '1', '2', '3', '4', '5', '6', '7', '8', '9',
   'b', 'c', 'd', 'e', 'f', 'g', 'h', 'j', 'k', 'm',
   'n', 'p', 'q', 'r', 's', 't', 'u', 'v', 'w', 'x', 'y', 'z']

/-- `_base32_map` of `src/app/tile.py`: position of a character in the
alphabet (the Python dict raises on characters outside the alphabet; here
such characters map to 32, a value the dict never produces). -/
def base32Idx (c : Char) : ℕ := base32.indexOf c

/-- Character at a given position of the alphabet (`_base32[i]`). -/
def base32Char (n : ℕ) : Char := base32.getD n '0'

/-- The `boost` table of `_encode_i2c`. -/
def boost : ℕ → ℕ
  | 0 => 0
  | 1 => 1
  | 2 => 4
  | 3 => 5
  | 4 => 16
  | 5 => 17
  | 6 => 20
  | 7 => 21
  | _ => 0

/-- The loop of `_encode_i2c` (`src/app/tile.py` lines 94-101): each
iteration emits `_base32[(boost[a & 7] + (boost[b & 3] << 1)) & 0x1F]`
and then swaps the streams, `a := b >> 2`, `b := a >> 3`.  Characters are
produced in emission order; `_encode_i2c` reverses them at the end. -/
def encodeLoop : ℕ → ℕ → ℕ → List Char
  | 0, _, _ => []
  | p + 1, a, b =>
      base32Char ((boost (a % 8) + 2 * boost (b % 4)) % 32) ::
        encodeLoop p (b / 4) (a / 8)

/-- `_encode_i2c` of `src/app/tile.py`. -/
def encode_i2c (lat lon lat_length lon_length : ℕ) : String :=
  let precision := (lat_length + lon_length) / 5
  let ab := if lat_length < lon_length then (lon, lat) else (lat, lon)
  String.mk (encodeLoop precision ab.1 ab.2).reverse

/-- The running state of `_decode_c2i`. -/
structure DecSt where
  lat : ℕ
  lon : ℕ
  bit_length : ℕ
  lat_length : ℕ
  lon_length : ℕ
  deriving DecidableEq

/-- One character step of `_decode_c2i` (`src/app/tile.py` lines 110-133). -/
def decodeStep (st : DecSt) (c : Char) : DecSt :=
  let t := base32Idx c
  if st.bit_length % 2 = 0 then
    { lat := st.lat * 4 + ((t >>> 2) &&& 2) + ((t >>> 1) &&& 1)
      lon := st.lon * 8 + ((t >>> 2) &&& 4) + ((t >>> 1) &&& 2) + (t &&& 1)
      bit_length := st.bit_length + 5
      lat_length := st.lat_length + 2
      lon_length := st.lon_length + 3 }
  else
    { lat := st.lat * 8 + ((t >>> 2) &&& 4) + ((t >>> 1) &&& 2) + (t &&& 1)
      lon := st.lon * 4 + ((t >>> 2) &&& 2) + ((t >>> 1) &&& 1)
      bit_length := st.bit_length + 5
      lat_length := st.lat_length + 3
      lon_length := st.lon_length + 2 }

/-- `_decode_c2i` of `src/app/tile.py`: fold the step over the hashcode. -/
def decode_c2i (hashcode : String) : DecSt :=
  hashcode.data.foldl decodeStep ⟨0, 0, 0, 0, 0⟩

/-- `_int_to_float_hex` of `src/app/tile.py` (lines 71-82).  The Python
function renders `i` (re-centred around `half = 1 << (l-1)`) as a
hexadecimal floating literal `±0x0.XXXXp1` and parses it with
`float.fromhex`; the value of `±0x0.DDDDp1` with `s` hex digits `D` of
integer value `m` is `±(m / 16^s) * 2`, which is what is computed here,
exactly, in `ℚ`. -/
def int_to_float_hex (i l : ℕ) : ℚ :=
  if l = 0 then -1
  else
    let half := 2 ^ (l - 1)
    let s := (l + 3) / 4
    if half ≤ i then (((i - half) * 2 ^ (s * 4 - l) : ℕ) : ℚ) / 16 ^ s * 2
    else -((((half - i) * 2 ^ (s * 4 - l) : ℕ) : ℚ) / 16 ^ s * 2)

/-- Geographic bounding box (degrees), exact rationals. -/
structure BBoxQ where
  n : ℚ
  s : ℚ
  e : ℚ
  w : ℚ
  deriving DecidableEq

/-- `to_bbox` of `src/app/tile.py`, the branch actually executed:
`hasattr(float, "fromhex")` holds on every supported Python, so the
floating-hex path (lines 143-148) computes the box. -/
def to_bbox (hashcode : String) : BBoxQ :=
  let d := decode_c2i hashcode
  let latitude_delta : ℚ := 180 / 2 ^ d.lat_length
  let longitude_delta : ℚ := 360 / 2 ^ d.lon_length
  let latitude := int_to_float_hex d.lat d.lat_length * 90
  let longitude := int_to_float_hex d.lon d.lon_length * 180
  { n := latitude + latitude_delta, s := latitude
    e := longitude + longitude_delta, w := longitude }

/-- The integer bit-shift fallback path of `to_bbox`
(`src/app/tile.py` lines 150-165). -/
def to_bbox_int (hashcode : String) : BBoxQ :=
  let d := decode_c2i hashcode
  let ns : ℚ × ℚ :=
    if d.lat_length ≠ 0 then
      (180 * ((d.lat : ℚ) + 1 - 2 ^ (d.lat_length - 1)) / 2 ^ d.lat_length,
       180 * ((d.lat : ℚ) - 2 ^ (d.lat_length - 1)) / 2 ^ d.lat_length)
    else (90, -90)
  let ew : ℚ × ℚ :=
    if d.lon_length ≠ 0 then
      (360 * ((d.lon : ℚ) + 1 - 2 ^ (d.lon_length - 1)) / 2 ^ d.lon_length,
       360 * ((d.lon : ℚ) - 2 ^ (d.lon_length - 1)) / 2 ^ d.lon_length)
    else (180, -180)
  { n := ns.1, s := ns.2, e := ew.1, w := ew.2 }

lemma int_to_float_hex_eq (i l : ℕ) (hl : l ≠ 0) :
    int_to_float_hex i l = 2 * (i : ℚ) / 2 ^ l - 1 := by
  unfold int_to_float_hex
  rw [if_neg hl]
  have hhalf : (2 : ℚ) ^ (l - 1) * 2 = 2 ^ l := by
    rw [← pow_succ]
    congr 1
    omega
  have hpow : (0 : ℚ) < 2 ^ l := by positivity
  have hkey : ∀ m : ℚ,
      m * 2 ^ (((l + 3) / 4) * 4 - l) / 16 ^ ((l + 3) / 4) * 2
        = m * 2 / 2 ^ l := by
    intro m
    have h16 : (16 : ℚ) ^ ((l + 3) / 4) =
        2 ^ (((l + 3) / 4) * 4 - l) * 2 ^ l := by
      rw [show (16 : ℚ) = 2 ^ 4 by norm_num, ← pow_mul, Nat.mul_comm, ← pow_add]
      congr 1
      omega
    have h2 : (0 : ℚ) < 2 ^ (((l + 3) / 4) * 4 - l) := by positivity
    rw [h16]
    field_simp
    ring
  by_cases hle : 2 ^ (l - 1) ≤ i
  · rw [if_pos hle]
    have hc : (((i - 2 ^ (l - 1)) * 2 ^ (((l + 3) / 4) * 4 - l) : ℕ) : ℚ) =
        ((i : ℚ) - 2 ^ (l - 1)) * 2 ^ (((l + 3) / 4) * 4 - l) := by
      push_cast [Nat.cast_sub hle]
      ring
    rw [hc, hkey]
    field_simp
    linarith [hhalf]
  · rw [if_neg hle]
    have hlt := Nat.le_of_not_lt (fun h => hle (Nat.le_of_lt h))
    have hc : (((2 ^ (l - 1) - i) * 2 ^ (((l + 3) / 4) * 4 - l) : ℕ) : ℚ) =
        ((2 : ℚ) ^ (l - 1) - i) * 2 ^ (((l + 3) / 4) * 4 - l) := by
      push_cast [Nat.cast_sub (Nat.le_of_not_le hle)]
      ring
    rw [hc, hkey]
    have h2 : (2 : ℚ) ^ (l - 1) * 2 * 2 ^ l = 2 ^ l * 2 ^ l := by rw [hhalf]
    field_simp
    linarith [h2]

/-- C8: the floating-hex path and the integer bit-shift fallback of
`to_bbox` agree exactly (embedded in exact rational arithmetic; the claim
allows floating tolerance, and the agreement is in fact exact). -/
theorem to_bbox_eq_to_bbox_int (hashcode : String) :
    to_bbox hashcode = to_bbox_int hashcode := by
  unfold to_bbox to_bbox_int
  obtain ⟨lat, lon, bl, latL, lonL⟩ := decode_c2i hashcode
  simp only
  by_cases hlat : latL = 0 <;> by_cases hlon : lonL = 0 <;>
    simp only [hlat, hlon, int_to_float_hex_eq, ne_eq, not_true_eq_false,
      not_false_eq_true, if_true, if_false, ite_true, ite_false,
      BBoxQ.mk.injEq]
  · subst hlat hlon
    norm_num [int_to_float_hex]
  · subst hlat
    have hhalf : (2 : ℚ) ^ (lonL - 1) * 2 = 2 ^ lonL := by
      rw [← pow_succ]
      congr 1
      omega
    have hpow : (0 : ℚ) < 2 ^ lonL := by positivity
    norm_num [int_to_float_hex]
    refine ⟨?_, ?_⟩ <;> field_simp <;> linarith [hhalf]
  · subst hlon
    have hhalf : (2 : ℚ) ^ (latL - 1) * 2 = 2 ^ latL := by
      rw [← pow_succ]
      congr 1
      omega
    have hpow : (0 : ℚ) < 2 ^ latL := by positivity
    norm_num [int_to_float_hex]
    refine ⟨?_, ?_⟩ <;> field_simp <;> linarith [hhalf]
  · have hhalfa : (2 : ℚ) ^ (latL - 1) * 2 = 2 ^ latL := by
      rw [← pow_succ]
      congr 1
      omega
    have hhalfb : (2 : ℚ) ^ (lonL - 1) * 2 = 2 ^ lonL := by
      rw [← pow_succ]
      congr 1
      omega
    have hpowa : (0 : ℚ) < 2 ^ latL := by positivity
    have hpowb : (0 : ℚ) < 2 ^ lonL := by positivity
    refine ⟨?_, ?_, ?_, ?_⟩ <;> field_simp <;> linarith [hhalfa, hhalfb]

/-- C7: decoding the zero-length geocell (the empty string) yields the
full-world bounding box (north 90, south -90, east 180, west -180)
rather than failing. -/
theorem to_bbox_empty_world :
    to_bbox "" = { n := 90, s := -90, e := 180, w := -180 } := by
  have h : decode_c2i "" = ⟨0, 0, 0, 0, 0⟩ := rfl
  unfold to_bbox
  rw [h]
  norm_num [int_to_float_hex, BBoxQ.mk.injEq]

/-!
### The integer-level round trip (`_encode_i2c` / `_decode_c2i`)

`encodeLoop` consumes its two bit streams from the least-significant end,
three bits from the first stream and two from the second per character,
swapping the streams each iteration; `_decode_c2i` rebuilds the two
streams from the most-significant end.  `aBits p` / `bBits p` count the
bits that `p` iterations of the loop consume from each stream.
-/

mutual

/-- Bits consumed from the first (`a`) stream by `p` encode iterations. -/
def aBits : ℕ → ℕ
  | 0 => 0
  | p + 1 => 3 + bBits p

/-- Bits consumed from the second (`b`) stream by `p` encode iterations. -/
def bBits : ℕ → ℕ
  | 0 => 0
  | p + 1 => 2 + aBits p

end

lemma aBits_add_bBits (p : ℕ) : aBits p + bBits p = 5 * p ∧ aBits p = bBits p + p % 2 := by
  induction p with
  | zero => simp [aBits, bBits]
  | succ p ih =>
    simp only [aBits, bBits]
    omega

lemma base32Idx_base32Char (v : ℕ) (hv : v < 32) :
    base32Idx (base32Char v) = v := by
  interval_cases v <;> decide

lemma boost_add_lt (va vb : ℕ) (hva : va < 8) (hvb : vb < 4) :
    boost va + 2 * boost vb < 32 := by
  interval_cases va <;> interval_cases vb <;> decide

/-- The five emitted bits of one encode iteration decompose back into
the three `a`-stream bits and the two `b`-stream bits. -/
lemma stepBits : ∀ va < 8, ∀ vb < 4,
    (((boost va + 2 * boost vb) >>> 2) &&& 2) +
      (((boost va + 2 * boost vb) >>> 1) &&& 1) = vb ∧
    (((boost va + 2 * boost vb) >>> 2) &&& 4) +
      (((boost va + 2 * boost vb) >>> 1) &&& 2) +
      ((boost va + 2 * boost vb) &&& 1) = va := by
  decide

lemma decodeStep_even (st : DecSt) (va vb : ℕ) (hva : va < 8) (hvb : vb < 4)
    (hbl : st.bit_length % 2 = 0) :
    decodeStep st (base32Char ((boost va + 2 * boost vb) % 32)) =
      { lat := st.lat * 4 + vb, lon := st.lon * 8 + va
        bit_length := st.bit_length + 5
        lat_length := st.lat_length + 2, lon_length := st.lon_length + 3 } := by
  have ht : base32Idx (base32Char ((boost va + 2 * boost vb) % 32)) =
      boost va + 2 * boost vb := by
    rw [Nat.mod_eq_of_lt (boost_add_lt va vb hva hvb)]
    exact base32Idx_base32Char _ (boost_add_lt va vb hva hvb)
  obtain ⟨h1, h2⟩ := stepBits va hva vb hvb
  simp only [add_assoc] at h1 h2
  simp only [decodeStep, ht, hbl, reduceIte, DecSt.mk.injEq, add_assoc]
  rw [h1, h2]
  simp

lemma decodeStep_odd (st : DecSt) (va vb : ℕ) (hva : va < 8) (hvb : vb < 4)
    (hbl : st.bit_length % 2 = 1) :
    decodeStep st (base32Char ((boost va + 2 * boost vb) % 32)) =
      { lat := st.lat * 8 + va, lon := st.lon * 4 + vb
        bit_length := st.bit_length + 5
        lat_length := st.lat_length + 3, lon_length := st.lon_length + 2 } := by
  have ht : base32Idx (base32Char ((boost va + 2 * boost vb) % 32)) =
      boost va + 2 * boost vb := by
    rw [Nat.mod_eq_of_lt (boost_add_lt va vb hva hvb)]
    exact base32Idx_base32Char _ (boost_add_lt va vb hva hvb)
  obtain ⟨h1, h2⟩ := stepBits va hva vb hvb
  simp only [add_assoc] at h1 h2
  simp only [decodeStep, ht, hbl, reduceIte, DecSt.mk.injEq, add_assoc]
  rw [h1, h2]
  simp

/-- Decoding the reversed emission of `p` encode-loop iterations recovers
both streams exactly, together with their bit counts. -/
lemma decode_encodeLoop (p : ℕ) :
    ∀ A B : ℕ, A < 2 ^ aBits p → B < 2 ^ bBits p →
      List.foldl decodeStep ⟨0, 0, 0, 0, 0⟩ (encodeLoop p A B).reverse =
        if p % 2 = 0 then ⟨A, B, 5 * p, aBits p, bBits p⟩
        else (⟨B, A, 5 * p, bBits p, aBits p⟩ : DecSt) := by
  induction p with
  | zero =>
    intro A B hA hB
    have hA0 : A = 0 := by simpa [aBits] using hA
    have hB0 : B = 0 := by simpa [bBits] using hB
    subst hA0 hB0
    simp [encodeLoop, aBits, bBits]
  | succ p ih =>
    intro A B hA hB
    have haB : aBits (p + 1) = 3 + bBits p := rfl
    have hbB : bBits (p + 1) = 2 + aBits p := rfl
    have hA' : B / 4 < 2 ^ aBits p := by
      rw [Nat.div_lt_iff_lt_mul (by norm_num : 0 < 4)]
      calc B < 2 ^ bBits (p + 1) := hB
        _ = 2 ^ aBits p * 4 := by rw [hbB, pow_add, pow_succ]; ring
    have hB' : A / 8 < 2 ^ bBits p := by
      rw [Nat.div_lt_iff_lt_mul (by norm_num : 0 < 8)]
      calc A < 2 ^ aBits (p + 1) := hA
        _ = 2 ^ bBits p * 8 := by rw [haB, pow_add]; ring
    rw [show encodeLoop (p + 1) A B =
          base32Char ((boost (A % 8) + 2 * boost (B % 4)) % 32) ::
            encodeLoop p (B / 4) (A / 8) from rfl,
        List.reverse_cons, List.foldl_append, ih (B / 4) (A / 8) hA' hB']
    by_cases hp : p % 2 = 0
    · rw [if_pos hp, List.foldl_cons, List.foldl_nil,
        decodeStep_even _ (A % 8) (B % 4) (Nat.mod_lt _ (by norm_num))
          (Nat.mod_lt _ (by norm_num)) (by simpa using by omega),
        if_neg (by omega)]
      simp only [DecSt.mk.injEq, haB, hbB]
      omega
    · rw [if_neg hp, List.foldl_cons, List.foldl_nil,
        decodeStep_odd _ (A % 8) (B % 4) (Nat.mod_lt _ (by norm_num))
          (Nat.mod_lt _ (by norm_num)) (by simpa using by omega),
        if_pos (by omega)]
      simp only [DecSt.mk.injEq, haB, hbB]
      omega

/-- C9: the integer-level round trip.  Under the claim's hypotheses
(values bounded by their bit lengths, total bit count divisible by five,
longitude/latitude bit counts differing exactly per the parity of the
geocell length), `_decode_c2i (_encode_i2c lat lon lat_length lon_length)`
returns exactly `(lat, lon, lat_length, lon_length)`. -/
theorem decode_encode_roundtrip (lat lon lat_length lon_length p : ℕ)
    (hsum : lat_length + lon_length = 5 * p)
    (heven : p % 2 = 0 → lon_length = lat_length)
    (hodd : p % 2 = 1 → lon_length = lat_length + 1)
    (hlat : lat < 2 ^ lat_length) (hlon : lon < 2 ^ lon_length) :
    (decode_c2i (encode_i2c lat lon lat_length lon_length)).lat = lat ∧
    (decode_c2i (encode_i2c lat lon lat_length lon_length)).lon = lon ∧
    (decode_c2i (encode_i2c lat lon lat_length lon_length)).lat_length = lat_length ∧
    (decode_c2i (encode_i2c lat lon lat_length lon_length)).lon_length = lon_length := by
  have hab := aBits_add_bBits p
  have hprec : (lat_length + lon_length) / 5 = p := by omega
  unfold encode_i2c decode_c2i
  rw [hprec]
  by_cases hp : p % 2 = 0
  · have hll : lon_length = lat_length := heven hp
    have hlt : ¬ lat_length < lon_length := by omega
    have hla : lat_length = aBits p := by omega
    have hlb : lon_length = bBits p := by omega
    rw [if_neg hlt]
    simp only [String.data]
    rw [decode_encodeLoop p lat lon (hla ▸ hlat) (hlb ▸ hlon), if_pos hp]
    exact ⟨rfl, rfl, hla.symm, hlb.symm⟩
  · have hp1 : p % 2 = 1 := by omega
    have hll : lon_length = lat_length + 1 := hodd hp1
    have hlt : lat_length < lon_length := by omega
    have hla : lat_length = bBits p := by omega
    have hlb : lon_length = aBits p := by omega
    rw [if_pos hlt]
    simp only [String.data]
    rw [decode_encodeLoop p lon lat (hlb ▸ hlon) (hla ▸ hlat), if_neg hp]
    exact ⟨rfl, rfl, hla.symm, hlb.symm⟩

/-- Witness for C9 at a concrete quadruple: precision 3 (odd geocell
length), `lat = 64 < 2^7`, `lon = 128 < 2^8`. -/
theorem decode_encode_roundtrip_witness :
    64 + 128 < 2 ^ 7 + 2 ^ 8 ∧
    (decode_c2i (encode_i2c 64 128 7 8)).lat = 64 ∧
    (decode_c2i (encode_i2c 64 128 7 8)).lon = 128 ∧
    (decode_c2i (encode_i2c 64 128 7 8)).lat_length = 7 ∧
    (decode_c2i (encode_i2c 64 128 7 8)).lon_length = 8 :=
  ⟨by norm_num,
   decode_encode_roundtrip 64 128 7 8 3 (by norm_num) (by omega) (by omega)
     (by norm_num) (by norm_num)⟩

/-!
### Tile-corner geocoding (`tile2goehashBBOX` of `src/app/tile.py`)

The slippy-map corner longitude is exact dyadic arithmetic (`ℚ`); the
corner latitude goes through `math.atan`/`math.sinh` and is embedded in
`ℝ`.  `pgh.encode` comes from the external `pygeohash` package (not part
of this repository) and is modelled from the spec, §4.1.
-/

/-- Corner latitude of tile row `y` at zoom `z`:
`degrees(atan(sinh(pi * (1 - 2*y/2^z))))`. -/
noncomputable def latOfTile (y : ℤ) (z : ℕ) : ℝ :=
  Real.arctan (Real.sinh (Real.pi * (1 - 2 * (y : ℝ) / 2 ^ z))) * 180 / Real.pi

/-- Corner longitude of tile column `x` at zoom `z`: `x / 2^z * 360 - 180`. -/
def lonOfTile (x : ℤ) (z : ℕ) : ℚ := (x : ℚ) / 2 ^ z * 360 - 180

/-- Bisection bit stream: repeatedly halve `[lo, hi]`, emitting `true`
and keeping the upper half when the value is strictly above the midpoint
(the geohash reference implementations test `value > mid`). -/
noncomputable def bisectBits (t : ℝ) : ℝ → ℝ → ℕ → List Bool
  | _, _, 0 => []
  | lo, hi, n + 1 =>
    if (lo + hi) / 2 < t then true :: bisectBits t ((lo + hi) / 2) hi n
    else false :: bisectBits t lo ((lo + hi) / 2) n

/-- Numeric value of a most-significant-first bit list. -/
def bitsVal (bs : List Bool) : ℕ :=
  bs.foldl (fun acc b => 2 * acc + (if b then 1 else 0)) 0

/-- Modelled from the spec: `pygeohash.encode` at precision 3 (the
`pgh.encode(lat, lon, precision=3)` call of `tile2goehashBBOX`; the
pygeohash package is not part of this repository).  Spec §4.1: alternate
bisection of the longitude and latitude ranges (longitude first, so 8
longitude and 7 latitude bits at precision 3), mapping each 5-bit group
through the 32-symbol alphabet; the interleaving into characters is
exactly `_encode_i2c` at bit lengths (7, 8). -/
noncomputable def pgh_encode3 (lat lon : ℝ) : String :=
  encode_i2c (bitsVal (bisectBits lat (-90) 90 7))
    (bitsVal (bisectBits lon (-180) 180 8)) 7 8

/-- `tile2goehashBBOX` of `src/app/tile.py` (lines 167-176). -/
noncomputable def tile2goehashBBOX (x y : ℤ) (z : ℕ) : String × BBoxQ :=
  let h := pgh_encode3 (latOfTile y z) ((lonOfTile x z : ℚ) : ℝ)
  (h, to_bbox h)

/-!
### The tile resolver (`get_open_buildings_png` of `src/app/api/buildings.py`)
-/

/-- Tile bytes (Python `bytes`), abstracted as a character string. -/
abbrev Bytes := String

/-- The `Band` enum of buildings.py. -/
inductive Band
  | presence
  | height
  deriving DecidableEq

/-- Value of a band as used in the cache-key f-string. -/
def bandStr : Band → String
  | .presence => "presence"
  | .height => "height"

def MIN_ZOOM : ℤ := 10

def MAX_ZOOM : ℤ := 18

/-- `_zoom_valido` of buildings.py. -/
def zoom_valido (z : ℤ) : Bool := decide (MIN_ZOOM ≤ z ∧ z ≤ MAX_ZOOM)

/-- Integers `a, a+1, ..., b-1` (Python `list(range(a, b))`). -/
def intRange (a b : ℤ) : List ℤ :=
  (List.range (b - a).toNat).map (fun i => a + i)

/-- One entry of the capability table; only the fields `_ano_valido`
consults (`name` and `year`) are embedded. -/
structure Collection where
  name : String
  years : List ℤ

/-- `CAPABILITIES` of `src/app/utils/capabilities.py`, parameterised by
the import-time current year (`datetime.now().year`).  Note there is no
`open_buildings` entry. -/
def CAPABILITIES (cur : ℤ) : List Collection :=
  [⟨"s2_harmonized", intRange 2017 (cur + 1)⟩,
   ⟨"landsat", intRange 1985 (cur + 1)⟩]

/-- `_ano_valido` of buildings.py:
`not meta or year in meta.get("year", [])` where `meta` is the
`open_buildings` entry of the capability table (absent → every year is
accepted). -/
def ano_valido (cur year : ℤ) : Bool :=
  match (CAPABILITIES cur).find? (fun c => c.name == "open_buildings") with
  | none => true
  | some m => m.years.contains year

/-- Python exceptions as the resolver's `except` clauses distinguish
them: `HTTPException` (with its `detail`) versus any other exception. -/
inductive Exc
  | http (detail : String)
  | other (msg : String)
  deriving DecidableEq

/-- `str(exc)` as interpolated into the error-image message. -/
def excStr : Exc → String
  | .http d => d
  | .other m => m

/-- Outcome of the `aiohttp` GET inside `_fetch_png`: an HTTP response
with some status code, or a transport-level failure (connection error,
timeout, ...) raising an exception that is not an `HTTPException`. -/
inductive FetchOutcome
  | respStatus (code : ℤ) (body : Bytes)
  | transportFail (msg : String)
  deriving DecidableEq

/-- `_fetch_png` of buildings.py (lines 107-113): a non-200 status raises
`HTTPException(status, "Imagem não encontrada na API externa")`; a
transport failure propagates the underlying non-HTTP exception. -/
def fetch_png : FetchOutcome → Except Exc Bytes
  | .respStatus code body =>
      if code = 200 then .ok body
      else .error (.http "Imagem não encontrada na API externa")
  | .transportFail m => .error (.other m)

/-- A stored URL-tier entry: `(template, issuedAt)`, with timestamps
counted in hours (the unit of `settings.LIFESPAN_URL`). -/
abbrev UrlRaw := String × ℤ

/-- Modelled from the spec: `getCacheUrl` of `app/utils/cache.py` (not
under src/).  Spec §6: the bucket-key value is serialised as
`"<template>, <ISO-8601 timestamp>"` so both fields can be recovered on
read; an absent value yields `None`. -/
def getCacheUrl : Option UrlRaw → Option UrlRaw
  | none => none
  | some p => some p

/-- Outcomes of the external interactions available to one request; a
single `now` stands for the request's `datetime.now()` readings. -/
structure Effects where
  imgGet : Except Exc (Option Bytes)
  urlGet : Except Exc (Option UrlRaw)
  countAssets : Except Exc ℕ
  mint : Except Exc String
  urlSet : Except Exc Unit
  fetch : FetchOutcome
  imgSet : Except Exc Unit
  now : ℤ

/-- Trace entries for cache-store and upstream operations.  `delEntry`
has no producer in the embedded code; it exists so that "the resolver
never deletes a key" is a statement about the code, not the vocabulary. -/
inductive Op
  | getImg (key : String)
  | getUrl (key : String)
  | setUrl (key : String) (template : String) (issuedAt : ℤ)
  | setImg (key : String) (value : Bytes)
  | delEntry (key : String)
  | countAssets
  | mintUrl
  | fetchTile (url : String)
  deriving DecidableEq

/-- What the route handler returns; every constructor carries `image/png`
content: a `FileResponse` placeholder file, streamed PNG bytes, or the
error raster.  `errorImage` is modelled from the spec
(`generate_error_image` of `app/errors.py` is not under src/): a
dynamically rendered in-memory image carrying the failure message. -/
inductive Response
  | fileImage (path : String)
  | streamImage (body : Bytes)
  | errorImage (msg : String)
  deriving DecidableEq

/-- `tile_url.format(x=x, y=y, z=z)`. -/
def formatXYZ (template : String) (x y z : ℤ) : String :=
  ((template.replace "{x}" (toString x)).replace "{y}"
    (toString y)).replace "{z}" (toString z)

/-- The final try-block of `get_open_buildings_png` (lines 355-363):
download the tile, write it under the tile key, stream the bytes.  Only
`HTTPException` is caught (→ error image); any other exception — a
transport failure inside `_fetch_png` or a store failure in
`valkey.set` — escapes. -/
def fetchPhase (fileKey tileUrl : String) (x y z : ℤ) (eff : Effects) :
    Except Exc Response × List Op :=
  let url := formatXYZ tileUrl x y z
  match fetch_png eff.fetch with
  | .error (.http d) => (.ok (.errorImage ("Erro: " ++ d)), [.fetchTile url])
  | .error (.other m) => (.error (.other m), [.fetchTile url])
  | .ok png =>
    match eff.imgSet with
    | .error (.http d) =>
        (.ok (.errorImage ("Erro: " ++ d)), [.fetchTile url, .setImg fileKey png])
    | .error (.other m) =>
        (.error (.other m), [.fetchTile url, .setImg fileKey png])
    | .ok _ => (.ok (.streamImage png), [.fetchTile url, .setImg fileKey png])

/-- The guarded upstream block of `get_open_buildings_png`
(lines 318-351): count the matching assets; zero → "not found"
placeholder; otherwise mint a tile-URL template and persist
`(template, now)` under the bucket key, then fall through to the fetch.
Any exception inside the block is caught and rendered as an error
image. -/
def upstreamPhase (pathKey fileKey : String) (x y z : ℤ) (eff : Effects) :
    Except Exc Response × List Op :=
  match eff.countAssets with
  | .error e => (.ok (.errorImage ("Erro: " ++ excStr e)), [.countAssets])
  | .ok n =>
    if n = 0 then (.ok (.fileImage "data/notfound.png"), [.countAssets])
    else
      match eff.mint with
      | .error e =>
          (.ok (.errorImage ("Erro: " ++ excStr e)), [.countAssets, .mintUrl])
      | .ok tmpl =>
        match eff.urlSet with
        | .error e =>
            (.ok (.errorImage ("Erro: " ++ excStr e)),
             [.countAssets, .mintUrl, .setUrl pathKey tmpl eff.now])
        | .ok _ =>
            let fr := fetchPhase fileKey tmpl x y z eff
            (fr.1, [.countAssets, .mintUrl, .setUrl pathKey tmpl eff.now] ++ fr.2)

/-- The URL-cache phase (lines 313-353): read the bucket key, parse it
with `getCacheUrl`, treat it as expired when absent or when
`now - issuedAt > timedelta(hours=TTL)`; on expiry run the upstream
block, otherwise reuse the stored template. -/
def urlPhase (pathKey fileKey : String) (x y z ttl : ℤ) (eff : Effects) :
    Except Exc Response × List Op :=
  match eff.urlGet with
  | .error e => (.error e, [.getUrl pathKey])
  | .ok w =>
    match getCacheUrl w with
    | none =>
      let r := upstreamPhase pathKey fileKey x y z eff
      (r.1, .getUrl pathKey :: r.2)
    | some info =>
      if eff.now - info.2 > ttl then
        let r := upstreamPhase pathKey fileKey x y z eff
        (r.1, .getUrl pathKey :: r.2)
      else
        let r := fetchPhase fileKey info.1 x y z eff
        (r.1, .getUrl pathKey :: r.2)

/-- The cache-aside core after validation (lines 307 onward): read the
tile key; non-empty cached bytes are streamed (Python truthiness, so the
empty byte string falls through as a miss). -/
def resolveCore (pathKey fileKey : String) (x y z ttl : ℤ) (eff : Effects) :
    Except Exc Response × List Op :=
  match eff.imgGet with
  | .error e => (.error e, [.getImg fileKey])
  | .ok (some b) =>
    if b ≠ "" then (.ok (.streamImage b), [.getImg fileKey])
    else
      let r := urlPhase pathKey fileKey x y z ttl eff
      (r.1, .getImg fileKey :: r.2)
  | .ok none =>
    let r := urlPhase pathKey fileKey x y z ttl eff
    (r.1, .getImg fileKey :: r.2)

/-- `path_cache` of buildings.py line 304. -/
def path_cache_key (band : Band) (year : ℤ) (geohash : String) : String :=
  "open_buildings_" ++ bandStr band ++ "_" ++ toString year ++ "/" ++ geohash

/-- `file_cache` of buildings.py line 305. -/
def file_cache_key (pathKey : String) (z x y : ℤ) : String :=
  pathKey ++ "/" ++ toString z ++ "/" ++ toString x ++ "_" ++ toString y ++ ".png"

/-- `get_open_buildings_png` of `src/app/api/buildings.py`
(lines 283-363).  `cur` is the import-time current year (capability
table); `ttl` is `settings.LIFESPAN_URL` in hours.  The result pairs the
handler outcome (a returned response, or an escaped exception) with the
trace of cache/upstream operations. -/
noncomputable def get_open_buildings_png (cur ttl x y z year : ℤ) (band : Band)
    (eff : Effects) : Except Exc Response × List Op :=
  if zoom_valido z = false then (.ok (.fileImage "data/maxminzoom.png"), [])
  else if ano_valido cur year = false then (.ok (.fileImage "data/notfound.png"), [])
  else
    let g := tile2goehashBBOX x y z.toNat
    let pathKey := path_cache_key band year g.1
    let fileKey := file_cache_key pathKey z x y
    resolveCore pathKey fileKey x y z ttl eff

/-- Whether the transport boundary sees an image: every value the handler
returns is an image response, while an escaped exception reaches the
FastAPI exception middleware
(`src/app/middleware/exception_handler.py`), which answers with a JSON
error document — not an image. -/
def isImageOutcome : Except Exc Response × List Op → Bool
  | (.ok _, _) => true
  | (.error _, _) => false

/-!
### Helper lemmas about the resolver
-/

lemma ano_valido_true (cur year : ℤ) : ano_valido cur year = true := rfl

lemma get_png_valid (cur ttl x y z year : ℤ) (band : Band) (eff : Effects)
    (hz : zoom_valido z = true) :
    get_open_buildings_png cur ttl x y z year band eff =
      resolveCore (path_cache_key band year (tile2goehashBBOX x y z.toNat).1)
        (file_cache_key (path_cache_key band year (tile2goehashBBOX x y z.toNat).1) z x y)
        x y z ttl eff := by
  unfold get_open_buildings_png
  rw [hz, ano_valido_true]
  simp

lemma resolveCore_head (pk fk : String) (x y z ttl : ℤ) (eff : Effects) :
    ∃ rest, (resolveCore pk fk x y z ttl eff).2 = Op.getImg fk :: rest := by
  rcases h : eff.imgGet with e | ob
  · exact ⟨[], by simp [resolveCore, h]⟩
  · rcases ob with _ | b
    · exact ⟨(urlPhase pk fk x y z ttl eff).2, by simp [resolveCore, h]⟩
    · by_cases hb : b = ""
      · exact ⟨(urlPhase pk fk x y z ttl eff).2, by simp [resolveCore, h, hb]⟩
      · exact ⟨[], by simp [resolveCore, h, hb]⟩

lemma fetchPhase_no_del (fk tu : String) (x y z : ℤ) (eff : Effects) (k : String) :
    Op.delEntry k ∉ (fetchPhase fk tu x y z eff).2 := by
  rcases h1 : fetch_png eff.fetch with e | b
  · rcases e with d | m <;> simp [fetchPhase, h1]
  · rcases h2 : eff.imgSet with e2 | u2
    · rcases e2 with d | m <;> simp [fetchPhase, h1, h2]
    · simp [fetchPhase, h1, h2]

lemma fetchPhase_no_mint (fk tu : String) (x y z : ℤ) (eff : Effects) :
    Op.mintUrl ∉ (fetchPhase fk tu x y z eff).2 := by
  rcases h1 : fetch_png eff.fetch with e | b
  · rcases e with d | m <;> simp [fetchPhase, h1]
  · rcases h2 : eff.imgSet with e2 | u2
    · rcases e2 with d | m <;> simp [fetchPhase, h1, h2]
    · simp [fetchPhase, h1, h2]

lemma fetchPhase_no_setUrl (fk tu : String) (x y z : ℤ) (eff : Effects)
    (k t : String) (i : ℤ) :
    Op.setUrl k t i ∉ (fetchPhase fk tu x y z eff).2 := by
  rcases h1 : fetch_png eff.fetch with e | b
  · rcases e with d | m <;> simp [fetchPhase, h1]
  · rcases h2 : eff.imgSet with e2 | u2
    · rcases e2 with d | m <;> simp [fetchPhase, h1, h2]
    · simp [fetchPhase, h1, h2]

lemma fetchPhase_has_fetch (fk tu : String) (x y z : ℤ) (eff : Effects) :
    Op.fetchTile (formatXYZ tu x y z) ∈ (fetchPhase fk tu x y z eff).2 := by
  rcases h1 : fetch_png eff.fetch with e | b
  · rcases e with d | m <;> simp [fetchPhase, h1]
  · rcases h2 : eff.imgSet with e2 | u2
    · rcases e2 with d | m <;> simp [fetchPhase, h1, h2]
    · simp [fetchPhase, h1, h2]

lemma upstreamPhase_no_del (pk fk : String) (x y z : ℤ) (eff : Effects) (k : String) :
    Op.delEntry k ∉ (upstreamPhase pk fk x y z eff).2 := by
  rcases h1 : eff.countAssets with e | n
  · simp [upstreamPhase, h1]
  · by_cases hn : n = 0
    · simp [upstreamPhase, h1, hn]
    · rcases h2 : eff.mint with e2 | t
      · simp [upstreamPhase, h1, hn, h2]
      · rcases h3 : eff.urlSet with e3 | u3
        · simp [upstreamPhase, h1, hn, h2, h3]
        · simp [upstreamPhase, h1, hn, h2, h3, fetchPhase_no_del]

lemma upstreamPhase_mint_and_set (pk fk : String) (x y z : ℤ) (eff : Effects)
    (n : ℕ) (hcount : eff.countAssets = .ok n) (hn : 0 < n)
    (t : String) (hmint : eff.mint = .ok t) :
    Op.mintUrl ∈ (upstreamPhase pk fk x y z eff).2 ∧
    Op.setUrl pk t eff.now ∈ (upstreamPhase pk fk x y z eff).2 := by
  rcases h3 : eff.urlSet with e3 | u3 <;>
    simp [upstreamPhase, hcount, Nat.pos_iff_ne_zero.mp hn, hmint, h3]

lemma urlPhase_no_del (pk fk : String) (x y z ttl : ℤ) (eff : Effects) (k : String) :
    Op.delEntry k ∉ (urlPhase pk fk x y z ttl eff).2 := by
  rcases h1 : eff.urlGet with e | w
  · simp [urlPhase, h1]
  · rcases w with _ | info
    · simp [urlPhase, h1, getCacheUrl, upstreamPhase_no_del]
    · by_cases hexp : eff.now - info.2 > ttl
      · simp [urlPhase, h1, getCacheUrl, hexp, upstreamPhase_no_del]
      · simp [urlPhase, h1, getCacheUrl, hexp, fetchPhase_no_del]

lemma resolveCore_no_del (pk fk : String) (x y z ttl : ℤ) (eff : Effects) (k : String) :
    Op.delEntry k ∉ (resolveCore pk fk x y z ttl eff).2 := by
  rcases h : eff.imgGet with e | ob
  · simp [resolveCore, h]
  · rcases ob with _ | b
    · simp [resolveCore, h, urlPhase_no_del]
    · by_cases hb : b = ""
      · simp [resolveCore, h, hb, urlPhase_no_del]
      · simp [resolveCore, h, hb]

lemma get_png_no_del (cur ttl x y z year : ℤ) (band : Band) (eff : Effects) (k : String) :
    Op.delEntry k ∉ (get_open_buildings_png cur ttl x y z year band eff).2 := by
  by_cases hz : zoom_valido z = true
  · rw [get_png_valid cur ttl x y z year band eff hz]
    exact resolveCore_no_del _ _ _ _ _ _ _ _
  · unfold get_open_buildings_png
    rw [Bool.not_eq_true] at hz
    rw [hz]
    simp

lemma resolveCore_zero_assets (pk fk : String) (x y z ttl : ℤ) (eff : Effects)
    (himg : eff.imgGet = .ok none ∨ eff.imgGet = .ok (some ""))
    (hurl : eff.urlGet = .ok none ∨
      ∃ u d, eff.urlGet = .ok (some (u, d)) ∧ ttl < eff.now - d)
    (hcount : eff.countAssets = .ok 0) :
    resolveCore pk fk x y z ttl eff =
      (.ok (.fileImage "data/notfound.png"),
       [.getImg fk, .getUrl pk, .countAssets]) := by
  have hu : urlPhase pk fk x y z ttl eff =
      (.ok (.fileImage "data/notfound.png"), [.getUrl pk, .countAssets]) := by
    rcases hurl with h | ⟨u, d, h, hd⟩
    · simp [urlPhase, h, getCacheUrl, upstreamPhase, hcount]
    · simp [urlPhase, h, getCacheUrl, hd, upstreamPhase, hcount]
  rcases himg with h | h <;> simp [resolveCore, h, hu]

/-- Effect outcomes with everything benign: both cache tiers miss, the
upstream reports zero assets, minting and the download would succeed. -/
def effDefault : Effects where
  imgGet := .ok none
  urlGet := .ok none
  countAssets := .ok 0
  mint := .ok "T"
  urlSet := .ok ()
  fetch := .respStatus 200 "PNG"
  imgSet := .ok ()
  now := 0

/-!
### The claims about the resolver
-/

/-- **C4.**  Zoom outside `[MIN_ZOOM, MAX_ZOOM] = [10, 18]` yields the
fixed out-of-range placeholder with an empty interaction trace (no cache
read or write, no upstream call), while zoom inside `[10, 18]` passes
validation and resolution proceeds: the image-tier read of the tile key
is issued. -/
theorem zoom_validation (cur ttl x y z year : ℤ) (band : Band) (eff : Effects) :
    (¬ (MIN_ZOOM ≤ z ∧ z ≤ MAX_ZOOM) →
      get_open_buildings_png cur ttl x y z year band eff =
        (.ok (.fileImage "data/maxminzoom.png"), [])) ∧
    (MIN_ZOOM ≤ z ∧ z ≤ MAX_ZOOM →
      ∃ k rest, (get_open_buildings_png cur ttl x y z year band eff).2 =
        Op.getImg k :: rest) := by
  constructor
  · intro hz
    have h : zoom_valido z = false := by
      rw [zoom_valido]
      exact decide_eq_false hz
    unfold get_open_buildings_png
    rw [h]
    simp
  · intro hz
    rw [get_png_valid cur ttl x y z year band eff
      (by rw [zoom_valido]; exact decide_eq_true hz)]
    exact ⟨_, resolveCore_head _ _ _ _ _ _ _⟩

/-- Witness for C4 at the boundary: z = 9 yields the placeholder and an
empty trace; z = 10 proceeds into resolution. -/
theorem zoom_validation_witness :
    get_open_buildings_png 2025 24 512 300 9 2024 Band.presence effDefault =
      (.ok (.fileImage "data/maxminzoom.png"), []) ∧
    ∃ k rest,
      (get_open_buildings_png 2025 24 512 300 10 2024 Band.presence effDefault).2 =
        Op.getImg k :: rest :=
  ⟨(zoom_validation 2025 24 512 300 9 2024 Band.presence effDefault).1
      (by rw [MIN_ZOOM, MAX_ZOOM]; omega),
   (zoom_validation 2025 24 512 300 10 2024 Band.presence effDefault).2
      (by rw [MIN_ZOOM, MAX_ZOOM]; omega)⟩

/-- **C5.**  When the URL tier misses or is expired and the upstream
reports zero matching assets, the "not found" placeholder is returned and
nothing is written to either cache tier. -/
theorem zero_assets_no_write (cur ttl x y z year : ℤ) (band : Band) (eff : Effects)
    (hz : zoom_valido z = true)
    (himg : eff.imgGet = .ok none ∨ eff.imgGet = .ok (some ""))
    (hurl : eff.urlGet = .ok none ∨
      ∃ u d, eff.urlGet = .ok (some (u, d)) ∧ ttl < eff.now - d)
    (hcount : eff.countAssets = .ok 0) :
    (get_open_buildings_png cur ttl x y z year band eff).1 =
      .ok (.fileImage "data/notfound.png") ∧
    ∀ op ∈ (get_open_buildings_png cur ttl x y z year band eff).2,
      (∀ k t i, op ≠ Op.setUrl k t i) ∧ ∀ k v, op ≠ Op.setImg k v := by
  rw [get_png_valid cur ttl x y z year band eff hz,
    resolveCore_zero_assets _ _ _ _ _ _ _ himg hurl hcount]
  refine ⟨rfl, ?_⟩
  intro op hop
  simp only [List.mem_cons, List.mem_singleton, List.not_mem_nil, or_false] at hop
  rcases hop with h | h | h <;> subst h <;>
    exact ⟨fun k t i => by simp, fun k v => by simp⟩

/-- Witness for C5: all-benign effects with a zero-asset upstream. -/
theorem zero_assets_no_write_witness :
    zoom_valido 10 = true ∧
    ((get_open_buildings_png 2025 24 512 300 10 2024 Band.presence effDefault).1 =
      .ok (.fileImage "data/notfound.png") ∧
    ∀ op ∈ (get_open_buildings_png 2025 24 512 300 10 2024 Band.presence effDefault).2,
      (∀ k t i, op ≠ Op.setUrl k t i) ∧ ∀ k v, op ≠ Op.setImg k v) :=
  ⟨by decide,
   zero_assets_no_write 2025 24 512 300 10 2024 Band.presence effDefault
     (by decide) (Or.inl rfl) (Or.inl rfl) rfl⟩

/-- **C10.**  An empty byte string stored under the tile key behaves
exactly like an absent entry (the request is indistinguishable from a
cache miss), and the cached-image fast path is taken only for non-empty
stored bytes. -/
theorem empty_cached_png_is_miss (cur ttl x y z year : ℤ) (band : Band)
    (eff : Effects) (b : Bytes) :
    (b = "" →
      get_open_buildings_png cur ttl x y z year band
          { eff with imgGet := .ok (some b) } =
        get_open_buildings_png cur ttl x y z year band
          { eff with imgGet := .ok none }) ∧
    (zoom_valido z = true → b ≠ "" →
      ∃ k, get_open_buildings_png cur ttl x y z year band
          { eff with imgGet := .ok (some b) } =
        (.ok (.streamImage b), [Op.getImg k])) := by
  constructor
  · intro hb
    subst hb
    rfl
  · intro hz hb
    rw [get_png_valid cur ttl x y z year band _ hz]
    exact ⟨file_cache_key (path_cache_key band year (tile2goehashBBOX x y z.toNat).1) z x y,
      by simp [resolveCore, hb]⟩

/-- Witness for C10: the empty cached value coincides with the absent
one, and non-empty cached bytes are streamed directly. -/
theorem empty_cached_png_is_miss_witness :
    (get_open_buildings_png 2025 24 512 300 10 2024 Band.presence
        { effDefault with imgGet := .ok (some "") } =
      get_open_buildings_png 2025 24 512 300 10 2024 Band.presence
        { effDefault with imgGet := .ok none }) ∧
    ∃ k, get_open_buildings_png 2025 24 512 300 10 2024 Band.presence
        { effDefault with imgGet := .ok (some "PNG") } =
      (.ok (.streamImage "PNG"), [Op.getImg k]) :=
  ⟨(empty_cached_png_is_miss 2025 24 512 300 10 2024 Band.presence
      effDefault "").1 rfl,
   (empty_cached_png_is_miss 2025 24 512 300 10 2024 Band.presence
      effDefault "PNG").2 (by decide) (by decide)⟩

/-- **C3 counterexample.**  The capability table defines no
`open_buildings` entry, so the year-validity check of the resolver
accepts every year: at year 1900 — not a valid year of any collection,
in particular not among the (non-existent) open-buildings years — the
resolver does not return the "not found" placeholder and does interact
with the cache: the tile-key read happens and a cached tile is
streamed. -/
theorem invalid_year_not_rejected :
    ((CAPABILITIES 2025).find? (fun c => c.name == "open_buildings") = none) ∧
    (∀ c ∈ CAPABILITIES 2025, (1900 : ℤ) ∉ c.years) ∧
    (get_open_buildings_png 2025 24 512 300 10 1900 Band.presence
        { effDefault with imgGet := .ok (some "PNGBYTES") }).1 =
      .ok (.streamImage "PNGBYTES") ∧
    (get_open_buildings_png 2025 24 512 300 10 1900 Band.presence
        { effDefault with imgGet := .ok (some "PNGBYTES") }).2 ≠ [] := by
  refine ⟨rfl, by decide, ?_, ?_⟩
  · rw [get_png_valid 2025 24 512 300 10 1900 Band.presence _ (by decide)]
    simp [resolveCore]
  · rw [get_png_valid 2025 24 512 300 10 1900 Band.presence _ (by decide)]
    simp [resolveCore]

/-- **C3 amended.**  `_ano_valido` can reject only when the capability
table carries an `open_buildings` entry whose year list omits the
requested year; the table has no such entry, so every year is accepted
and every zoom-valid request proceeds to tile resolution regardless of
its year. -/
theorem year_check_accepts_all (cur ttl x y z year : ℤ) (band : Band)
    (eff : Effects) (hz : MIN_ZOOM ≤ z ∧ z ≤ MAX_ZOOM) :
    ano_valido cur year = true ∧
    ∃ k rest, (get_open_buildings_png cur ttl x y z year band eff).2 =
      Op.getImg k :: rest := by
  refine ⟨ano_valido_true cur year, ?_⟩
  rw [get_png_valid cur ttl x y z year band eff
    (by rw [zoom_valido]; exact decide_eq_true hz)]
  exact ⟨_, resolveCore_head _ _ _ _ _ _ _⟩

/-- Witness for the amended C3 at year 1900. -/
theorem year_check_accepts_all_witness :
    (MIN_ZOOM ≤ (10 : ℤ) ∧ (10 : ℤ) ≤ MAX_ZOOM) ∧
    (ano_valido 2025 1900 = true ∧
     ∃ k rest,
       (get_open_buildings_png 2025 24 512 300 10 1900 Band.presence
         effDefault).2 = Op.getImg k :: rest) :=
  ⟨by rw [MIN_ZOOM, MAX_ZOOM]; omega,
   year_check_accepts_all 2025 24 512 300 10 1900 Band.presence effDefault
     (by rw [MIN_ZOOM, MAX_ZOOM]; omega)⟩

/-- **C6 amended.**  A cached URL-template entry is treated as valid
exactly while `now - issuedAt ≤ TTL` (the code's strict `>` comparison):
an unexpired entry is reused with no mint and no URL-tier write; an
absent entry, or one strictly older than the TTL, triggers a fresh mint
whose result `(template, now)` is written under the bucket key
(overwriting the prior value); and no request ever deletes a store
key. -/
theorem url_ttl_semantics (cur ttl x y z year : ℤ) (band : Band)
    (eff : Effects) (u : String) (d : ℤ) :
    (zoom_valido z = true → eff.imgGet = .ok none →
      eff.urlGet = .ok (some (u, d)) → eff.now - d ≤ ttl →
      Op.mintUrl ∉ (get_open_buildings_png cur ttl x y z year band eff).2 ∧
      (∀ pk t i, Op.setUrl pk t i ∉
        (get_open_buildings_png cur ttl x y z year band eff).2) ∧
      Op.fetchTile (formatXYZ u x y z) ∈
        (get_open_buildings_png cur ttl x y z year band eff).2) ∧
    (zoom_valido z = true → eff.imgGet = .ok none →
      (eff.urlGet = .ok none ∨
        (eff.urlGet = .ok (some (u, d)) ∧ ttl < eff.now - d)) →
      ∀ n, eff.countAssets = .ok n → 0 < n → ∀ t, eff.mint = .ok t →
      Op.mintUrl ∈ (get_open_buildings_png cur ttl x y z year band eff).2 ∧
      ∃ pk, Op.setUrl pk t eff.now ∈
        (get_open_buildings_png cur ttl x y z year band eff).2) ∧
    (∀ k, Op.delEntry k ∉
      (get_open_buildings_png cur ttl x y z year band eff).2) := by
  refine ⟨?_, ?_, fun k => get_png_no_del cur ttl x y z year band eff k⟩
  · intro hz himg hurl hle
    have hexp : ¬ (eff.now - d > ttl) := not_lt.mpr hle
    rw [get_png_valid cur ttl x y z year band eff hz]
    have hru : resolveCore
        (path_cache_key band year (tile2goehashBBOX x y z.toNat).1)
        (file_cache_key (path_cache_key band year (tile2goehashBBOX x y z.toNat).1) z x y)
        x y z ttl eff =
        ((fetchPhase (file_cache_key (path_cache_key band year (tile2goehashBBOX x y z.toNat).1) z x y) u x y z eff).1,
         Op.getImg (file_cache_key (path_cache_key band year (tile2goehashBBOX x y z.toNat).1) z x y) ::
         Op.getUrl (path_cache_key band year (tile2goehashBBOX x y z.toNat).1) ::
         (fetchPhase (file_cache_key (path_cache_key band year (tile2goehashBBOX x y z.toNat).1) z x y) u x y z eff).2) := by
      simp [resolveCore, himg, urlPhase, hurl, getCacheUrl, hexp]
    rw [hru]
    refine ⟨?_, ?_, ?_⟩
    · simp [fetchPhase_no_mint]
    · intro pk t i
      simp [fetchPhase_no_setUrl]
    · simp [fetchPhase_has_fetch]
  · intro hz himg hurl n hc hn t hm
    rw [get_png_valid cur ttl x y z year band eff hz]
    have hru : resolveCore
        (path_cache_key band year (tile2goehashBBOX x y z.toNat).1)
        (file_cache_key (path_cache_key band year (tile2goehashBBOX x y z.toNat).1) z x y)
        x y z ttl eff =
        ((upstreamPhase (path_cache_key band year (tile2goehashBBOX x y z.toNat).1)
            (file_cache_key (path_cache_key band year (tile2goehashBBOX x y z.toNat).1) z x y) x y z eff).1,
         Op.getImg (file_cache_key (path_cache_key band year (tile2goehashBBOX x y z.toNat).1) z x y) ::
         Op.getUrl (path_cache_key band year (tile2goehashBBOX x y z.toNat).1) ::
         (upstreamPhase (path_cache_key band year (tile2goehashBBOX x y z.toNat).1)
            (file_cache_key (path_cache_key band year (tile2goehashBBOX x y z.toNat).1) z x y) x y z eff).2) := by
      rcases hurl with h | ⟨h, hlt⟩
      · simp [resolveCore, himg, urlPhase, h, getCacheUrl]
      · simp [resolveCore, himg, urlPhase, h, getCacheUrl, hlt]
    rw [hru]
    obtain ⟨hmint, hset⟩ := upstreamPhase_mint_and_set
      (path_cache_key band year (tile2goehashBBOX x y z.toNat).1)
      (file_cache_key (path_cache_key band year (tile2goehashBBOX x y z.toNat).1) z x y)
      x y z eff n hc hn t hm
    exact ⟨by simp [hmint],
      ⟨path_cache_key band year (tile2goehashBBOX x y z.toNat).1, by simp [hset]⟩⟩

/-- Effects with a stored URL entry issued at hour 0 and a current time
of hour 23: one hour inside a 24-hour TTL. -/
def effFresh : Effects :=
  { effDefault with urlGet := .ok (some ("T", 0)), now := 23 }

/-- Witness for the amended C6: an entry aged 23 hours against a 24-hour
TTL is reused — no mint, no URL-tier write, the stored template is
fetched. -/
theorem url_ttl_semantics_witness :
    Op.mintUrl ∉
      (get_open_buildings_png 2025 24 512 300 10 2024 Band.presence effFresh).2 ∧
    (∀ pk t i, Op.setUrl pk t i ∉
      (get_open_buildings_png 2025 24 512 300 10 2024 Band.presence effFresh).2) ∧
    Op.fetchTile (formatXYZ "T" 512 300 10) ∈
      (get_open_buildings_png 2025 24 512 300 10 2024 Band.presence effFresh).2 :=
  (url_ttl_semantics 2025 24 512 300 10 2024 Band.presence effFresh "T" 0).1
    (by decide) rfl rfl (by decide)

/-- Effects with a stored URL entry whose age is exactly the TTL
(issued at hour 0, now hour 24, TTL 24 hours). -/
def effTtlEdge : Effects :=
  { effDefault with urlGet := .ok (some ("T", 0)), now := 24 }

/-- **C6 counterexample.**  At age exactly TTL (`now - issuedAt = TTL`),
the claim requires the entry to be treated as absent and re-minted; the
code's strict `>` comparison instead reuses it: no mint occurs, nothing
is written to the URL tier, and the stored template is fetched. -/
theorem ttl_boundary_entry_still_used :
    Op.mintUrl ∉
      (get_open_buildings_png 2025 24 512 300 10 2024 Band.presence effTtlEdge).2 ∧
    (∀ pk t i, Op.setUrl pk t i ∉
      (get_open_buildings_png 2025 24 512 300 10 2024 Band.presence effTtlEdge).2) ∧
    Op.fetchTile (formatXYZ "T" 512 300 10) ∈
      (get_open_buildings_png 2025 24 512 300 10 2024 Band.presence effTtlEdge).2 ∧
    (get_open_buildings_png 2025 24 512 300 10 2024 Band.presence effTtlEdge).1 =
      .ok (.streamImage "PNG") := by
  have key : ∀ pk fk : String, resolveCore pk fk 512 300 10 24 effTtlEdge =
      (.ok (.streamImage "PNG"),
       [Op.getImg fk, Op.getUrl pk, Op.fetchTile (formatXYZ "T" 512 300 10),
        Op.setImg fk "PNG"]) := by
    intro pk fk
    norm_num [resolveCore, effTtlEdge, effDefault, urlPhase, getCacheUrl,
      fetchPhase, fetch_png]
  rw [get_png_valid 2025 24 512 300 10 2024 Band.presence effTtlEdge (by decide),
    key]
  exact ⟨by simp, fun pk t i => by simp, by simp, rfl⟩

/-- Effects in which the tile download fails at the transport level
(e.g. a connection reset inside `aiohttp`), with an unexpired cached URL
template. -/
def effTransport : Effects :=
  { effDefault with
      urlGet := .ok (some ("T", 0))
      now := 1
      fetch := .transportFail "connection lost" }

/-- Effects in which the tile download returns HTTP 404. -/
def eff404 : Effects :=
  { effDefault with
      urlGet := .ok (some ("T", 0))
      now := 1
      fetch := .respStatus 404 "" }

/-- **C1.**  A transport-level failure while downloading the tile bytes
escapes `get_open_buildings_png` — the `except` around `_fetch_png`
catches only `HTTPException` — so the client does not receive a 200
image for that request (the escaped exception is answered by the JSON
error middleware).  By contrast, an HTTP-status failure (404) on the same
path is converted into a rendered error image, as the contract
requires. -/
theorem transport_failure_escapes :
    (get_open_buildings_png 2025 24 512 300 10 2024 Band.presence
        effTransport).1 = .error (.other "connection lost") ∧
    isImageOutcome (get_open_buildings_png 2025 24 512 300 10 2024
        Band.presence effTransport) = false ∧
    (get_open_buildings_png 2025 24 512 300 10 2024 Band.presence
        eff404).1 =
      .ok (.errorImage ("Erro: " ++ "Imagem não encontrada na API externa")) := by
  have h1 : ∀ pk fk : String, resolveCore pk fk 512 300 10 24 effTransport =
      (.error (.other "connection lost"),
       [Op.getImg fk, Op.getUrl pk, Op.fetchTile (formatXYZ "T" 512 300 10)]) := by
    intro pk fk
    norm_num [resolveCore, effTransport, effDefault, urlPhase, getCacheUrl,
      fetchPhase, fetch_png]
  have h2 : ∀ pk fk : String, resolveCore pk fk 512 300 10 24 eff404 =
      (.ok (.errorImage ("Erro: " ++ "Imagem não encontrada na API externa")),
       [Op.getImg fk, Op.getUrl pk, Op.fetchTile (formatXYZ "T" 512 300 10)]) := by
    intro pk fk
    norm_num [resolveCore, eff404, effDefault, urlPhase, getCacheUrl,
      fetchPhase, fetch_png]
  rw [get_png_valid 2025 24 512 300 10 2024 Band.presence effTransport (by decide),
    get_png_valid 2025 24 512 300 10 2024 Band.presence eff404 (by decide),
    h1, h2]
  exact ⟨rfl, rfl, rfl⟩

/-!
### Geometry of the geocell bucket (C2)

The bisection streams of the geohash encoding are characterised in terms
of the cell index they compute, and the decoded bounding box of an
encoded index pair is given in closed form.
-/

lemma bisectBits_length (t : ℝ) :
    ∀ (n : ℕ) (lo hi : ℝ), (bisectBits t lo hi n).length = n := by
  intro n
  induction n with
  | zero => intro lo hi; rfl
  | succ n ih =>
    intro lo hi
    rw [bisectBits]
    split <;> simp [ih]

lemma bitsVal_aux (L : List Bool) :
    ∀ a : ℕ, L.foldl (fun acc b => 2 * acc + (if b then 1 else 0)) a =
      a * 2 ^ L.length + bitsVal L := by
  induction L with
  | nil => intro a; simp [bitsVal]
  | cons b L ih =>
    intro a
    simp only [List.foldl_cons, bitsVal, List.length_cons]
    rw [ih, ih (2 * 0 + if b then 1 else 0), pow_succ]
    ring

lemma bitsVal_cons (b : Bool) (L : List Bool) :
    bitsVal (b :: L) = (if b then 1 else 0) * 2 ^ L.length + bitsVal L := by
  show List.foldl _ _ (b :: L) = _
  rw [List.foldl_cons, bitsVal_aux]
  ring

lemma bitsVal_cons_true (L : List Bool) :
    bitsVal (true :: L) = 2 ^ L.length + bitsVal L := by
  rw [bitsVal_cons]
  simp

lemma bitsVal_cons_false (L : List Bool) :
    bitsVal (false :: L) = bitsVal L := by
  rw [bitsVal_cons]
  simp

/-- The bisection keeps the point inside the running interval: the value
of an `n`-step stream is below `2^n`, and the corresponding dyadic cell
encloses the point. -/
lemma bisect_bounds (n : ℕ) :
    ∀ lo hi t : ℝ, lo ≤ t → t ≤ hi →
      bitsVal (bisectBits t lo hi n) < 2 ^ n ∧
      lo + (bitsVal (bisectBits t lo hi n) : ℝ) * (hi - lo) / 2 ^ n ≤ t ∧
      t ≤ lo + ((bitsVal (bisectBits t lo hi n) : ℝ) + 1) * (hi - lo) / 2 ^ n := by
  induction n with
  | zero =>
    intro lo hi t h1 h2
    refine ⟨by norm_num [bisectBits, bitsVal], ?_, ?_⟩ <;>
      simp [bisectBits, bitsVal] <;> linarith
  | succ n ih =>
    intro lo hi t h1 h2
    have hpow : (0 : ℝ) < 2 ^ n := by positivity
    have hpow1 : (0 : ℝ) < 2 ^ (n + 1) := by positivity
    rw [bisectBits]
    by_cases hmid : (lo + hi) / 2 < t
    · rw [if_pos hmid]
      obtain ⟨hv, hl, hr⟩ := ih ((lo + hi) / 2) hi t (le_of_lt hmid) h2
      have hlen : (bisectBits t ((lo + hi) / 2) hi n).length = n :=
        bisectBits_length t n _ _
      rw [bitsVal_cons_true, hlen]
      refine ⟨?_, ?_, ?_⟩
      · have h2n : 2 ^ (n + 1) = 2 ^ n + 2 ^ n := by rw [pow_succ]; omega
        omega
      · have heq : lo + ((2 ^ n + bitsVal (bisectBits t ((lo + hi) / 2) hi n) : ℕ) : ℝ) *
            (hi - lo) / 2 ^ (n + 1) =
            (lo + hi) / 2 + (bitsVal (bisectBits t ((lo + hi) / 2) hi n) : ℝ) *
              (hi - (lo + hi) / 2) / 2 ^ n := by
          push_cast
          rw [pow_succ]
          field_simp
          ring
        rw [heq]
        exact hl
      · have heq : lo + (((2 ^ n + bitsVal (bisectBits t ((lo + hi) / 2) hi n) : ℕ) : ℝ) + 1) *
            (hi - lo) / 2 ^ (n + 1) =
            (lo + hi) / 2 + ((bitsVal (bisectBits t ((lo + hi) / 2) hi n) : ℝ) + 1) *
              (hi - (lo + hi) / 2) / 2 ^ n := by
          push_cast
          rw [pow_succ]
          field_simp
          ring
        rw [heq]
        exact hr
    · rw [if_neg hmid]
      obtain ⟨hv, hl, hr⟩ := ih lo ((lo + hi) / 2) t h1 (le_of_not_lt hmid)
      have hlen : (bisectBits t lo ((lo + hi) / 2) n).length = n :=
        bisectBits_length t n _ _
      rw [bitsVal_cons_false]
      refine ⟨?_, ?_, ?_⟩
      · have h2n : 2 ^ (n + 1) = 2 ^ n + 2 ^ n := by rw [pow_succ]; omega
        have h2p : (0:ℕ) < 2 ^ n := Nat.pos_pow_of_pos n (by norm_num)
        omega
      · have heq : lo + (bitsVal (bisectBits t lo ((lo + hi) / 2) n) : ℝ) *
            (hi - lo) / 2 ^ (n + 1) =
            lo + (bitsVal (bisectBits t lo ((lo + hi) / 2) n) : ℝ) *
              ((lo + hi) / 2 - lo) / 2 ^ n := by
          rw [pow_succ]
          field_simp
          ring
        rw [heq]
        exact hl
      · have heq : lo + ((bitsVal (bisectBits t lo ((lo + hi) / 2) n) : ℝ) + 1) *
            (hi - lo) / 2 ^ (n + 1) =
            lo + ((bitsVal (bisectBits t lo ((lo + hi) / 2) n) : ℝ) + 1) *
              ((lo + hi) / 2 - lo) / 2 ^ n := by
          rw [pow_succ]
          field_simp
          ring
        rw [heq]
        exact hr

/-- A point strictly inside dyadic cell `k` (with the cell's upper edge
included) bisects to exactly the bits of `k`. -/
lemma bisect_exact (n : ℕ) :
    ∀ (lo hi t : ℝ) (k : ℕ), lo < hi → k < 2 ^ n →
      lo + (k : ℝ) * (hi - lo) / 2 ^ n < t →
      t ≤ lo + ((k : ℝ) + 1) * (hi - lo) / 2 ^ n →
      bitsVal (bisectBits t lo hi n) = k := by
  induction n with
  | zero =>
    intro lo hi t k _ hk _ _
    have : k = 0 := by omega
    subst this
    rfl
  | succ n ih =>
    intro lo hi t k hlh hk hlow hhigh
    have hw : (0 : ℝ) < hi - lo := by linarith
    have hpow : (0 : ℝ) < 2 ^ n := by positivity
    have hpow1 : (0 : ℝ) < 2 ^ (n + 1) := by positivity
    have hmid2 : lo < (lo + hi) / 2 := by linarith
    have hmid3 : (lo + hi) / 2 < hi := by linarith
    rw [bisectBits]
    by_cases hk2 : 2 ^ n ≤ k
    · have hcast : ((2 : ℝ)) ^ n ≤ (k : ℝ) := by exact_mod_cast hk2
      have hhalf : (lo + hi) / 2 = lo + (2 : ℝ) ^ n * (hi - lo) / 2 ^ (n + 1) := by
        rw [pow_succ]
        field_simp
        ring
      have hmid : (lo + hi) / 2 < t := by
        refine lt_of_le_of_lt ?_ hlow
        rw [hhalf]
        have hnum : (2 : ℝ) ^ n * (hi - lo) ≤ (k : ℝ) * (hi - lo) :=
          mul_le_mul_of_nonneg_right hcast (le_of_lt hw)
        have := (div_le_div_right hpow1).mpr hnum
        linarith
      rw [if_pos hmid]
      have heqL : lo + (k : ℝ) * (hi - lo) / 2 ^ (n + 1) =
          (lo + hi) / 2 + ((k - 2 ^ n : ℕ) : ℝ) * (hi - (lo + hi) / 2) / 2 ^ n := by
        push_cast [Nat.cast_sub hk2]
        rw [pow_succ]
        field_simp
        ring
      have heqH : lo + ((k : ℝ) + 1) * (hi - lo) / 2 ^ (n + 1) =
          (lo + hi) / 2 + (((k - 2 ^ n : ℕ) : ℝ) + 1) * (hi - (lo + hi) / 2) / 2 ^ n := by
        push_cast [Nat.cast_sub hk2]
        rw [pow_succ]
        field_simp
        ring
      have hrec := ih ((lo + hi) / 2) hi t (k - 2 ^ n) hmid3 (by
          have h2n : 2 ^ (n + 1) = 2 ^ n + 2 ^ n := by rw [pow_succ]; omega
          omega)
        (by rw [← heqL]; exact hlow) (by rw [← heqH]; exact hhigh)
      rw [bitsVal_cons_true, bisectBits_length, hrec]
      omega
    · have hk2' : k + 1 ≤ 2 ^ n := by omega
      have hcast : ((k : ℝ)) + 1 ≤ (2 : ℝ) ^ n := by exact_mod_cast hk2'
      have hhalf : (lo + hi) / 2 = lo + (2 : ℝ) ^ n * (hi - lo) / 2 ^ (n + 1) := by
        rw [pow_succ]
        field_simp
        ring
      have hmid : ¬ ((lo + hi) / 2 < t) := by
        push_neg
        refine le_trans hhigh ?_
        rw [hhalf]
        have hnum : ((k : ℝ) + 1) * (hi - lo) ≤ (2 : ℝ) ^ n * (hi - lo) :=
          mul_le_mul_of_nonneg_right hcast (le_of_lt hw)
        have := (div_le_div_right hpow1).mpr hnum
        linarith
      rw [if_neg hmid]
      have heqL : lo + (k : ℝ) * (hi - lo) / 2 ^ (n + 1) =
          lo + (k : ℝ) * ((lo + hi) / 2 - lo) / 2 ^ n := by
        rw [pow_succ]
        field_simp
        ring
      have heqH : lo + ((k : ℝ) + 1) * (hi - lo) / 2 ^ (n + 1) =
          lo + ((k : ℝ) + 1) * ((lo + hi) / 2 - lo) / 2 ^ n := by
        rw [pow_succ]
        field_simp
        ring
      have hrec := ih lo ((lo + hi) / 2) t k hmid2 (by omega)
        (by rw [← heqL]; exact hlow) (by rw [← heqH]; exact hhigh)
      rw [bitsVal_cons_false, hrec]

lemma aBits_three : aBits 3 = 8 := by norm_num [aBits, bBits]

lemma bBits_three : bBits 3 = 7 := by norm_num [aBits, bBits]

lemma decode_encode_7_8 (latV lonV : ℕ) (hlat : latV < 2 ^ 7) (hlon : lonV < 2 ^ 8) :
    decode_c2i (encode_i2c latV lonV 7 8) = ⟨latV, lonV, 15, 7, 8⟩ := by
  have h := decode_encodeLoop 3 lonV latV
    (by rw [aBits_three]; exact hlon) (by rw [bBits_three]; exact hlat)
  rw [if_neg (by norm_num)] at h
  unfold encode_i2c decode_c2i
  simp only [show (7 + 8) / 5 = 3 from rfl, if_pos (show 7 < 8 by norm_num)]
  rw [h]
  norm_num [aBits_three, bBits_three]

/-- Decoded bounding box of an encoded index pair at precision 3. -/
lemma bbox_of_encode (latV lonV : ℕ) (hlat : latV < 2 ^ 7) (hlon : lonV < 2 ^ 8) :
    to_bbox (encode_i2c latV lonV 7 8) =
      { n := 180 * ((latV : ℚ) + 1) / 128 - 90
        s := 180 * (latV : ℚ) / 128 - 90
        e := 360 * ((lonV : ℚ) + 1) / 256 - 180
        w := 360 * (lonV : ℚ) / 256 - 180 } := by
  unfold to_bbox
  rw [decode_encode_7_8 latV lonV hlat hlon]
  simp only [int_to_float_hex_eq _ 7 (by norm_num),
    int_to_float_hex_eq _ 8 (by norm_num), BBoxQ.mk.injEq]
  norm_num
  refine ⟨?_, ?_, ?_, ?_⟩ <;> ring

/-!
### Elementary transcendental bounds

Polynomial control on `sinh`, `tan` and the Gudermannian composite
`arctan ∘ sinh` (the inverse-Mercator latitude of `tile2goehashBBOX`),
sufficient to locate tile-corner latitudes between geocell boundaries.
-/

lemma sinh_ub (x : ℝ) (h0 : 0 ≤ x) (h1 : x ≤ 1) :
    Real.sinh x ≤ x + x ^ 3 / 6 + x ^ 5 / 100 := by
  have hx : |x| ≤ 1 := by rw [abs_of_nonneg h0]; exact h1
  have hxn : |(-x)| ≤ 1 := by rwa [abs_neg]
  have hb := Real.exp_bound hx (by norm_num : (0 : ℕ) < 5)
  have hbn := Real.exp_bound hxn (by norm_num : (0 : ℕ) < 5)
  rw [abs_of_nonneg h0] at hb
  rw [abs_neg, abs_of_nonneg h0] at hbn
  simp only [Finset.sum_range_succ, Finset.sum_range_zero, Nat.factorial] at hb hbn
  norm_num at hb hbn
  ring_nf at hb hbn
  have h2 := (abs_le.mp hb).2
  have h3 := (abs_le.mp hbn).1
  rw [Real.sinh_eq]
  nlinarith [h2, h3]

lemma arctan_le_self (x : ℝ) (h0 : 0 ≤ x) : Real.arctan x ≤ x := by
  rcases eq_or_lt_of_le h0 with h | h
  · rw [← h]
    simp
  · have ha0 : 0 < Real.arctan x := by
      rw [← Real.arctan_zero]
      exact Real.arctan_strictMono h
    have ha2 : Real.arctan x < Real.pi / 2 := Real.arctan_lt_pi_div_two x
    have := Real.le_tan (le_of_lt ha0) ha2
    rwa [Real.tan_arctan] at this

lemma sinh_lt_tan (x : ℝ) (h0 : 0 < x) (h1 : x ≤ 1) :
    Real.sinh x < Real.tan x := by
  have hpi : x < Real.pi / 2 := lt_of_le_of_lt h1 (by linarith [Real.pi_gt_three])
  have hcos : 0 < Real.cos x :=
    Real.cos_pos_of_mem_Ioo ⟨by linarith [Real.pi_gt_three], hpi⟩
  have hsin : x - x ^ 3 / 4 < Real.sin x := Real.sin_gt_sub_cube h0 h1
  have habs : |x| ≤ 1 := by rw [abs_of_nonneg h0.le]; exact h1
  have hcosU : Real.cos x ≤ 1 - x ^ 2 / 2 + x ^ 4 * (5 / 96) := by
    have h := (abs_le.mp (Real.cos_bound habs)).2
    rw [abs_of_nonneg h0.le] at h
    linarith
  have hsinh : Real.sinh x ≤ x + x ^ 3 / 6 + x ^ 5 / 100 := sinh_ub x h0.le h1
  have hx2 : x ^ 2 ≤ 1 := by nlinarith
  have hx3 : x ^ 3 ≤ x := by nlinarith
  have hslb : 0 < x - x ^ 3 / 4 := by linarith
  have hx4 : 0 ≤ x ^ 4 := pow_nonneg h0.le 4
  have hC : 0 < 1 - x ^ 2 / 2 + x ^ 4 * (5 / 96) := by linarith
  have key : (x - x ^ 3 / 4) / (1 - x ^ 2 / 2 + x ^ 4 * (5 / 96)) ≤
      Real.sin x / Real.cos x :=
    div_le_div (by linarith) hsin.le hcos hcosU
  have hx7 : x ^ 7 ≤ x ^ 3 := pow_le_pow_of_le_one h0.le h1 (by norm_num)
  have hx9 : x ^ 9 ≤ x ^ 3 := pow_le_pow_of_le_one h0.le h1 (by norm_num)
  have h5 : 0 ≤ x ^ 5 := pow_nonneg h0.le 5
  have h3p : 0 < x ^ 3 := pow_pos h0 3
  have final : Real.sinh x < (x - x ^ 3 / 4) / (1 - x ^ 2 / 2 + x ^ 4 * (5 / 96)) := by
    rw [lt_div_iff hC]
    nlinarith [mul_le_mul_of_nonneg_right hsinh hC.le]
  rw [Real.tan_eq_sin_div_cos]
  linarith [key, final]

lemma tan_lt_five_quarters (x : ℝ) (h0 : 0 < x) (h1 : x ≤ 1 / 2) :
    Real.tan x < 5 / 4 * x := by
  have hpi : x < Real.pi / 2 := by nlinarith [Real.pi_gt_three]
  have hcos : 0 < Real.cos x :=
    Real.cos_pos_of_mem_Ioo ⟨by nlinarith [Real.pi_gt_three], hpi⟩
  have hcoslb : 1 - x ^ 2 / 2 ≤ Real.cos x := Real.one_sub_sq_div_two_le_cos
  have hcos45 : (4 : ℝ) / 5 < Real.cos x := by nlinarith
  have hsin : Real.sin x < x := Real.sin_lt h0
  rw [Real.tan_eq_sin_div_cos, div_lt_iff hcos]
  nlinarith

lemma sinh_le_eight_fifths (x : ℝ) (h0 : 0 ≤ x) (h1 : x ≤ 1) :
    Real.sinh x ≤ 8 / 5 * x := by
  have h := sinh_ub x h0 h1
  have hx3 : x ^ 3 ≤ x := by
    have h3 := pow_le_pow_of_le_one h0 h1 (by norm_num : 1 ≤ 3)
    simpa using h3
  have hx5 : x ^ 5 ≤ x := by
    have h5 := pow_le_pow_of_le_one h0 h1 (by norm_num : 1 ≤ 5)
    simpa using h5
  linarith

/-- The Gudermannian (inverse-Mercator latitude in radians) lies strictly
below the identity on `(0, 1]`. -/
lemma gd_lt_self (x : ℝ) (h0 : 0 < x) (h1 : x ≤ 1) :
    Real.arctan (Real.sinh x) < x := by
  have h := sinh_lt_tan x h0 h1
  have hpi : x < Real.pi / 2 := lt_of_le_of_lt h1 (by linarith [Real.pi_gt_three])
  calc Real.arctan (Real.sinh x) < Real.arctan (Real.tan x) :=
        Real.arctan_strictMono h
    _ = x := Real.arctan_tan (by linarith [Real.pi_gt_three]) hpi

/-- The Gudermannian at `5x/4` exceeds `x` for `x ∈ (0, 1/2]`. -/
lemma gd_shift_gt (x : ℝ) (h0 : 0 < x) (h1 : x ≤ 1 / 2) :
    x < Real.arctan (Real.sinh (5 / 4 * x)) := by
  have hpi : x < Real.pi / 2 := by nlinarith [Real.pi_gt_three]
  have htan : Real.tan x < 5 / 4 * x := tan_lt_five_quarters x h0 h1
  have hsinh : 5 / 4 * x < Real.sinh (5 / 4 * x) :=
    Real.self_lt_sinh_iff.mpr (by linarith)
  calc x = Real.arctan (Real.tan x) :=
        (Real.arctan_tan (by linarith [Real.pi_gt_three]) hpi).symm
    _ < Real.arctan (Real.sinh (5 / 4 * x)) :=
        Real.arctan_strictMono (by linarith)

lemma latOfTile_bounds (y : ℤ) (z : ℕ) :
    (-90 : ℝ) ≤ latOfTile y z ∧ latOfTile y z ≤ 90 := by
  have hpi := Real.pi_pos
  have h1 := Real.arctan_lt_pi_div_two (Real.sinh (Real.pi * (1 - 2 * (y : ℝ) / 2 ^ z)))
  have h2 := Real.neg_pi_div_two_lt_arctan (Real.sinh (Real.pi * (1 - 2 * (y : ℝ) / 2 ^ z)))
  unfold latOfTile
  rw [div_le_iff hpi, le_div_iff hpi]
  constructor <;> nlinarith

/-- The C2 containment property as the spec states it: the decoded
geocell box of `tile2goehashBBOX x y z` contains the tile's own
geographic bounding box (rows `y` to `y+1`, columns `x` to `x+1`). -/
def bucketContainsTile (x y : ℤ) (z : ℕ) : Prop :=
  (((tile2goehashBBOX x y z).2.s : ℚ) : ℝ) ≤ latOfTile (y + 1) z ∧
  latOfTile y z ≤ (((tile2goehashBBOX x y z).2.n : ℚ) : ℝ) ∧
  (((tile2goehashBBOX x y z).2.w : ℚ) : ℝ) ≤ ((lonOfTile x z : ℚ) : ℝ) ∧
  ((lonOfTile (x + 1) z : ℚ) : ℝ) ≤ (((tile2goehashBBOX x y z).2.e : ℚ) : ℝ)

/-- **C2 amended.**  The decoded geocell box always contains the tile's
reference (north-west) corner: the corner latitude and longitude both lie
inside the decoded bounds. -/
theorem bucket_contains_reference_corner (x y : ℤ) (z : ℕ)
    (hz : 10 ≤ z ∧ z ≤ 18) (hx0 : 0 ≤ x) (hx1 : x ≤ 2 ^ z) :
    (((tile2goehashBBOX x y z).2.s : ℚ) : ℝ) ≤ latOfTile y z ∧
    latOfTile y z ≤ (((tile2goehashBBOX x y z).2.n : ℚ) : ℝ) ∧
    (((tile2goehashBBOX x y z).2.w : ℚ) : ℝ) ≤ ((lonOfTile x z : ℚ) : ℝ) ∧
    ((lonOfTile x z : ℚ) : ℝ) ≤ (((tile2goehashBBOX x y z).2.e : ℚ) : ℝ) := by
  obtain ⟨hlatB1, hlatB2⟩ := latOfTile_bounds y z
  have hlonQ : (-180 : ℚ) ≤ lonOfTile x z ∧ lonOfTile x z ≤ 180 := by
    unfold lonOfTile
    have h2 : (0 : ℚ) < 2 ^ z := by positivity
    have hq0 : (0 : ℚ) ≤ (x : ℚ) / 2 ^ z :=
      div_nonneg (by exact_mod_cast hx0) (le_of_lt h2)
    have hq1 : (x : ℚ) / 2 ^ z ≤ 1 :=
      (div_le_one h2).mpr (by exact_mod_cast hx1)
    constructor <;> nlinarith
  have hlon1 : (-180 : ℝ) ≤ ((lonOfTile x z : ℚ) : ℝ) := by exact_mod_cast hlonQ.1
  have hlon2 : ((lonOfTile x z : ℚ) : ℝ) ≤ 180 := by exact_mod_cast hlonQ.2
  obtain ⟨hvLat, hLatLow, hLatHigh⟩ :=
    bisect_bounds 7 (-90) 90 (latOfTile y z) hlatB1 hlatB2
  obtain ⟨hvLon, hLonLow, hLonHigh⟩ :=
    bisect_bounds 8 (-180) 180 ((lonOfTile x z : ℚ) : ℝ) hlon1 hlon2
  have hbb : (tile2goehashBBOX x y z).2 =
      to_bbox (encode_i2c
        (bitsVal (bisectBits (latOfTile y z) (-90) 90 7))
        (bitsVal (bisectBits ((lonOfTile x z : ℚ) : ℝ) (-180) 180 8)) 7 8) := rfl
  rw [hbb, bbox_of_encode _ _ hvLat hvLon]
  norm_num at hLatLow hLatHigh hLonLow hLonHigh
  refine ⟨?_, ?_, ?_, ?_⟩ <;> push_cast <;> linarith

/-- Witness for the amended C2 at the tile (513, 507, 10). -/
theorem bucket_contains_reference_corner_witness :
    ((10 ≤ 10 ∧ 10 ≤ 18) ∧ (0 : ℤ) ≤ 513 ∧ (513 : ℤ) ≤ 2 ^ 10) ∧
    ((((tile2goehashBBOX 513 507 10).2.s : ℚ) : ℝ) ≤ latOfTile 507 10 ∧
     latOfTile 507 10 ≤ (((tile2goehashBBOX 513 507 10).2.n : ℚ) : ℝ) ∧
     (((tile2goehashBBOX 513 507 10).2.w : ℚ) : ℝ) ≤ ((lonOfTile 513 10 : ℚ) : ℝ) ∧
     ((lonOfTile 513 10 : ℚ) : ℝ) ≤ (((tile2goehashBBOX 513 507 10).2.e : ℚ) : ℝ)) :=
  ⟨⟨⟨by norm_num, by norm_num⟩, by norm_num, by norm_num⟩,
   bucket_contains_reference_corner 513 507 10 ⟨by norm_num, by norm_num⟩
     (by norm_num) (by norm_num)⟩

/-- **C2 counterexample.**  The tile (x = 513, y = 507, z = 10) straddles
the latitude boundary 1.40625° of its precision-3 geocell: the tile's
top-corner latitude `gd(5π/512)·180/π` lies just above the boundary, so
the geocell decodes to a box with south edge 45/32 = 1.40625, while the
tile's own south edge `gd(π/128)·180/π` lies strictly below it (the
Gudermannian `gd` is strictly below the identity).  Hence the spatial
bucket is not a superset of the tile it was derived from. -/
theorem bucket_not_superset_of_tile : ¬ bucketContainsTile 513 507 10 := by
  have hpi := Real.pi_pos
  have hpi4 := Real.pi_lt_four
  have hpi3 := Real.pi_gt_three
  set s := Real.pi / 128 with hs
  have hs0 : 0 < s := by positivity
  have hs12 : s ≤ 1 / 2 := by rw [hs]; nlinarith
  have hs1 : s ≤ 1 := by linarith
  have h54 : 5 / 4 * s ≤ 1 := by rw [hs]; nlinarith
  -- the two tile-corner latitude parameters
  have harg507 : Real.pi * (1 - 2 * ((507 : ℤ) : ℝ) / 2 ^ 10) = 5 / 4 * s := by
    rw [hs]
    push_cast
    ring
  have harg508 : Real.pi * (1 - 2 * ((508 : ℤ) : ℝ) / 2 ^ 10) = s := by
    rw [hs]
    push_cast
    ring
  have hL507 : latOfTile 507 10 =
      Real.arctan (Real.sinh (5 / 4 * s)) * 180 / Real.pi := by
    unfold latOfTile
    rw [harg507]
  have hL508 : latOfTile 508 10 =
      Real.arctan (Real.sinh s) * 180 / Real.pi := by
    unfold latOfTile
    rw [harg508]
  -- degree conversions of the boundaries
  have hseq : s * 180 / Real.pi = 45 / 32 := by
    rw [hs]
    field_simp
    ring
  have hseq2 : 2 * s * 180 / Real.pi = 45 / 16 := by
    rw [hs]
    field_simp
    ring
  -- top corner strictly inside the cell (45/32, 45/16]
  have hgd1 : s < Real.arctan (Real.sinh (5 / 4 * s)) := gd_shift_gt s hs0 hs12
  have hgd2 : Real.arctan (Real.sinh (5 / 4 * s)) ≤ 2 * s := by
    have hxp : (0 : ℝ) < 5 / 4 * s := by linarith
    have hnn : 0 ≤ Real.sinh (5 / 4 * s) :=
      le_of_lt (lt_trans hxp (Real.self_lt_sinh_iff.mpr hxp))
    have := le_trans (arctan_le_self _ hnn)
      (sinh_le_eight_fifths (5 / 4 * s) (by linarith) h54)
    linarith
  have hup1 : (45 : ℝ) / 32 < latOfTile 507 10 := by
    rw [hL507, ← hseq]
    have := (div_lt_div_right hpi).mpr
      (mul_lt_mul_of_pos_right hgd1 (by norm_num : (0 : ℝ) < 180))
    linarith
  have hup2 : latOfTile 507 10 ≤ 45 / 16 := by
    rw [hL507, ← hseq2]
    have := (div_le_div_right hpi).mpr
      (mul_le_mul_of_nonneg_right hgd2 (by norm_num : (0 : ℝ) ≤ 180))
    linarith
  -- bottom corner strictly below the cell's south edge
  have hlow : latOfTile 508 10 < 45 / 32 := by
    rw [hL508, ← hseq]
    have hgd := gd_lt_self s hs0 hs1
    have := (div_lt_div_right hpi).mpr
      (mul_lt_mul_of_pos_right hgd (by norm_num : (0 : ℝ) < 180))
    linarith
  -- the geocell of the top-left corner
  have hlatIdx : bitsVal (bisectBits (latOfTile 507 10) (-90) 90 7) = 65 := by
    apply bisect_exact 7 (-90) 90 _ 65 (by norm_num) (by norm_num)
    · calc (-90 : ℝ) + (65 : ℕ) * (90 - -90) / 2 ^ 7 = 45 / 32 := by norm_num
        _ < latOfTile 507 10 := hup1
    · calc latOfTile 507 10 ≤ 45 / 16 := hup2
        _ = (-90 : ℝ) + ((65 : ℕ) + 1) * (90 - -90) / 2 ^ 7 := by norm_num
  have hlonQ : lonOfTile 513 10 = 45 / 128 := by
    unfold lonOfTile
    norm_num
  have hlonIdx :
      bitsVal (bisectBits ((lonOfTile 513 10 : ℚ) : ℝ) (-180) 180 8) = 128 := by
    rw [hlonQ]
    apply bisect_exact 8 (-180) 180 _ 128 (by norm_num) (by norm_num)
    · push_cast
      norm_num
    · push_cast
      norm_num
  have hbb : (tile2goehashBBOX 513 507 10).2 = to_bbox (encode_i2c 65 128 7 8) := by
    have hhash : pgh_encode3 (latOfTile 507 10) ((lonOfTile 513 10 : ℚ) : ℝ) =
        encode_i2c 65 128 7 8 := by
      unfold pgh_encode3
      rw [hlatIdx, hlonIdx]
    show to_bbox (pgh_encode3 (latOfTile 507 10) ((lonOfTile 513 10 : ℚ) : ℝ)) = _
    rw [hhash]
  intro hcontain
  obtain ⟨hsouth, -, -, -⟩ := hcontain
  rw [hbb, bbox_of_encode 65 128 (by norm_num) (by norm_num)] at hsouth
  norm_num at hsouth
  linarith

end GeeSpec
